import Mathlib

/-!
Verification of the picoDSP firmware core against its specification.

The Rust sources are embedded shallowly: machine floats are modelled as
exact rationals (every literal appearing in the modelled code is an exact
decimal), bytes as natural numbers with explicit truncation where the code
truncates, stateful code as explicit state passing, and the flash sector
under the storage collaborator as the list of bytes it holds.
-/

namespace PicoDSP

/-! ## NoteStack (src/control/midi.rs, lines 59-116)

The monophonic note-priority and sustain tracker.  `notes` and
`pendingOff` model the two `heapless::Vec<u8, 16>` fields: a push on a
full vector fails silently, which the embedding reproduces with an
explicit capacity test. -/

def noteCapacity : Nat := 16

structure NoteStack where
  notes : List Nat
  pendingOff : List Nat
  sustainActive : Bool
deriving Repr, DecidableEq

def NoteStack.new : NoteStack := ⟨[], [], false⟩

def NoteStack.noteOn (s : NoteStack) (note : Nat) : NoteStack :=
  { s with
    pendingOff := s.pendingOff.erase note,
    notes :=
      if note ∈ s.notes then s.notes
      else if s.notes.length < noteCapacity then s.notes ++ [note]
      else s.notes }

def NoteStack.noteOff (s : NoteStack) (note : Nat) : NoteStack :=
  if s.sustainActive then
    if note ∈ s.notes ∧ note ∉ s.pendingOff then
      if s.pendingOff.length < noteCapacity then
        { s with pendingOff := s.pendingOff ++ [note] }
      else s
    else s
  else
    { s with notes := s.notes.erase note }

def NoteStack.setSustain (s : NoteStack) (active : Bool) : NoteStack :=
  if active then { s with sustainActive := true }
  else
    { notes := s.pendingOff.foldl (fun ns p => ns.erase p) s.notes,
      pendingOff := [],
      sustainActive := false }

def NoteStack.clear (_s : NoteStack) : NoteStack := ⟨[], [], false⟩

def NoteStack.activeNote (s : NoteStack) : Option Nat := s.notes.getLast?

/-- Event alphabet of the NoteStack, as driven by `midi_task`. -/
inductive NoteEv where
  | on (n : Nat)
  | off (n : Nat)
  | sus (b : Bool)
  | clr
deriving Repr, DecidableEq

def NoteStack.step (s : NoteStack) : NoteEv → NoteStack
  | .on n => s.noteOn n
  | .off n => s.noteOff n
  | .sus b => s.setSustain b
  | .clr => s.clear

def NoteStack.runFrom (s : NoteStack) (evs : List NoteEv) : NoteStack :=
  evs.foldl NoteStack.step s

def NoteStack.run (evs : List NoteEv) : NoteStack :=
  NoteStack.runFrom NoteStack.new evs

/-! ## Specification-side note tracker

Built from the words of the spec for the refinement claim C3: an
unbounded tracker in which `active` lists, in order of press, the notes
that have been pressed and neither directly released (while sustain is
inactive) nor sustain-flushed; `pendingFlush` holds the notes released
under sustain that await the flush on sustain going inactive. -/

structure SpecStack where
  active : List Nat
  pendingFlush : List Nat
  sustain : Bool
deriving Repr, DecidableEq

def SpecStack.new : SpecStack := ⟨[], [], false⟩

def SpecStack.step (t : SpecStack) : NoteEv → SpecStack
  | .on n =>
      { t with
        pendingFlush := t.pendingFlush.erase n,
        active := if n ∈ t.active then t.active else t.active ++ [n] }
  | .off n =>
      if t.sustain then
        if n ∈ t.active ∧ n ∉ t.pendingFlush then
          { t with pendingFlush := t.pendingFlush ++ [n] }
        else t
      else
        { t with active := t.active.erase n }
  | .sus b =>
      if b then { t with sustain := true }
      else
        { active := t.pendingFlush.foldl (fun ns p => ns.erase p) t.active,
          pendingFlush := [],
          sustain := false }
  | .clr => ⟨[], [], false⟩

def SpecStack.runFrom (t : SpecStack) (evs : List NoteEv) : SpecStack :=
  evs.foldl SpecStack.step t

/-- Capacity discipline expressed on the specification tracker: along the
whole trace the set of active notes never needs to exceed the 16-slot
capacity of the implementation. -/
def specCapOK : SpecStack → List NoteEv → Bool
  | _, [] => true
  | t, e :: es => decide ((t.step e).active.length ≤ noteCapacity) && specCapOK (t.step e) es

/-- Abstraction map from the implementation state to the spec state. -/
def absNS (s : NoteStack) : SpecStack := ⟨s.notes, s.pendingOff, s.sustainActive⟩

/-! ## ControlBridge (src/control/midi.rs, lines 118-213)

`MidiControl` holds independently atomic parameters; since every claim
about it concerns a single thread of updates, it is embedded as a plain
record.  Float fields are rationals; all defaults are exact decimals. -/

structure MidiControl where
  targetFreq : ℚ
  gate : Bool
  gateReset : Bool
  portamentoAmount : ℚ
  pitchBend : ℚ
  modWheel : ℚ
  parameter1 : ℚ
  parameter2 : ℚ
deriving Repr, DecidableEq

def MidiControl.new : MidiControl :=
  { targetFreq := 440
    gate := false
    gateReset := false
    portamentoAmount := 0
    pitchBend := 1
    modWheel := 0
    parameter1 := 1/2
    parameter2 := 0 }

def MidiControl.setFreq (c : MidiControl) (freq : ℚ) : MidiControl :=
  { c with targetFreq := freq }

def MidiControl.setGate (c : MidiControl) (g : Bool) : MidiControl :=
  { c with gate := g, gateReset := if g then c.gateReset else true }

def MidiControl.takeGateReset (c : MidiControl) : Bool × MidiControl :=
  (c.gateReset, { c with gateReset := false })

def MidiControl.setPortamento (c : MidiControl) (amount : ℚ) : MidiControl :=
  { c with portamentoAmount := amount }

def MidiControl.setPitchBend (c : MidiControl) (bendFactor : ℚ) : MidiControl :=
  { c with pitchBend := bendFactor }

def MidiControl.setModWheel (c : MidiControl) (value : ℚ) : MidiControl :=
  { c with modWheel := value }

def MidiControl.setParameter1 (c : MidiControl) (value : ℚ) : MidiControl :=
  { c with parameter1 := value }

def MidiControl.setParameter2 (c : MidiControl) (value : ℚ) : MidiControl :=
  { c with parameter2 := value }

def MidiControl.reset (c : MidiControl) : MidiControl :=
  { c with gate := false, gateReset := false, pitchBend := 1, modWheel := 0 }

/-- Handler body for Control Change 120 and 123 in `midi_task`
(src/control/midi.rs, lines 550-555): clear the NoteStack and reset the
ControlBridge. -/
def allNotesOff (ns : NoteStack) (c : MidiControl) : NoteStack × MidiControl :=
  (ns.clear, c.reset)

/-- Call alphabet for the gate-reset protocol of claim C9. -/
inductive GateEv where
  | set (b : Bool)
  | take
deriving Repr, DecidableEq

def gateStep (c : MidiControl) : GateEv → MidiControl
  | .set b => c.setGate b
  | .take => (c.takeGateReset).2

/-! ## Oscillator phase accumulator (src/dsp/oscillator.rs, lines 51-204)

Every per-sample branch of `FastOscillator::process` advances the phase
the same way: `phase += freq * inv_sr; if phase >= 1.0 { phase -= 1.0 }
else if phase < 0.0 { phase += 1.0 }`.  The accumulator is embedded over
exact rationals. -/

def phaseStep (sampleRate : ℚ) (phase : ℚ) (freq : ℚ) : ℚ :=
  let p := phase + freq * (1 / sampleRate)
  if 1 ≤ p then p - 1 else if p < 0 then p + 1 else p

def runPhase (sampleRate : ℚ) (phase : ℚ) (freqs : List ℚ) : ℚ :=
  freqs.foldl (phaseStep sampleRate) phase

/-! ## Oscillator mixer (src/dsp/moog.rs, lines 59-95)

`MoogOscillatorSection::process` builds the block from the primary
oscillator (or zero-fills it when its level is at or below 0.0001) and
then accumulates each secondary source whose level is above 0.0001.  The
blocks the four oscillators would produce are passed in as lists; the
block length is the length of the primary block. -/

def mixThreshold : ℚ := 1/10000

def mixerProcess (l1 l2 l3 lnoise : ℚ) (o1 o2 o3 onoise : List ℚ) : List ℚ :=
  let base :=
    if l1 > mixThreshold then o1.map (fun s => s * l1)
    else List.replicate o1.length 0
  let with2 :=
    if l2 > mixThreshold then base.zipWith (fun s t => s + t * l2) o2 else base
  let with3 :=
    if l3 > mixThreshold then with2.zipWith (fun s t => s + t * l3) o3 else with2
  if lnoise > mixThreshold then with3.zipWith (fun s t => s + t * lnoise) onoise
  else with3

/-! ## Reverb (src/dsp/reverb.rs)

Delay lines, combs and allpasses are embedded with explicit state.  The
per-block room-size and damping values sampled from the two AudioParams
are passed to `Reverb.processBlock` as rationals; a stereo buffer is a
list of (left, right) frames. -/

structure DelayLine where
  buffer : List ℚ
  pos : Nat
deriving Repr, DecidableEq

def DelayLine.process (d : DelayLine) (input : ℚ) : ℚ × DelayLine :=
  let output := d.buffer.getD d.pos 0
  (output, ⟨d.buffer.set d.pos input, (d.pos + 1) % d.buffer.length⟩)

def DelayLine.reset (d : DelayLine) : DelayLine :=
  ⟨List.replicate d.buffer.length 0, 0⟩

structure Comb where
  delay : DelayLine
  feedback : ℚ
  damp : ℚ
  filterState : ℚ
deriving Repr, DecidableEq

def Comb.process (c : Comb) (input : ℚ) : ℚ × Comb :=
  let r := c.delay.process (input + c.filterState * c.feedback)
  let fs := r.1 * (1 - c.damp) + c.filterState * c.damp
  (r.1, ⟨r.2, c.feedback, c.damp, fs⟩)

def Comb.reset (c : Comb) : Comb :=
  ⟨c.delay.reset, c.feedback, c.damp, 0⟩

structure Allpass where
  delay : DelayLine
  feedback : ℚ
deriving Repr, DecidableEq

def Allpass.process (a : Allpass) (input : ℚ) : ℚ × Allpass :=
  let r := a.delay.process input
  let output := -input + r.1
  let d1 := r.2
  let len := d1.buffer.length
  let writePos := (d1.pos + len - 1) % len
  let buf := d1.buffer.set writePos (d1.buffer.getD writePos 0 + output * a.feedback)
  (output, ⟨⟨buf, d1.pos⟩, a.feedback⟩)

def Allpass.reset (a : Allpass) : Allpass :=
  ⟨a.delay.reset, a.feedback⟩

structure Reverb where
  combsL : List Comb
  combsR : List Comb
  allpassesL : List Allpass
  allpassesR : List Allpass
deriving Repr, DecidableEq

def Reverb.reset (r : Reverb) : Reverb :=
  ⟨r.combsL.map Comb.reset, r.combsR.map Comb.reset,
   r.allpassesL.map Allpass.reset, r.allpassesR.map Allpass.reset⟩

/-- The comb accumulation loop: `out += comb.process(input)` over the
comb list, threading each updated comb. -/
def runCombs (input : ℚ) (acc : ℚ) : List Comb → ℚ × List Comb
  | [] => (acc, [])
  | c :: cs =>
      let r := c.process input
      let rest := runCombs input (acc + r.1) cs
      (rest.1, r.2 :: rest.2)

/-- The allpass chain: `out = ap.process(out)` over the allpass list. -/
def runAllpasses (x : ℚ) : List Allpass → ℚ × List Allpass
  | [] => (x, [])
  | a :: rest =>
      let r := a.process x
      let tail := runAllpasses r.1 rest
      (tail.1, r.2 :: tail.2)

def Reverb.setParams (r : Reverb) (rs dp : ℚ) : Reverb :=
  { r with
    combsL := r.combsL.map (fun c => { c with feedback := rs, damp := dp }),
    combsR := r.combsR.map (fun c => { c with feedback := rs, damp := dp }) }

def Reverb.processFrame (r : Reverb) (frame : ℚ × ℚ) : (ℚ × ℚ) × Reverb :=
  let input := (frame.1 + frame.2) * (1/2) * (15/1000)
  let l := runCombs input 0 r.combsL
  let rr := runCombs input 0 r.combsR
  let la := runAllpasses l.1 r.allpassesL
  let ra := runAllpasses rr.1 r.allpassesR
  ((la.1, ra.1), ⟨l.2, rr.2, la.2, ra.2⟩)

def Reverb.processFrames (r : Reverb) : List (ℚ × ℚ) → List (ℚ × ℚ) × Reverb
  | [] => ([], r)
  | f :: fs =>
      let step := r.processFrame f
      let rest := step.2.processFrames fs
      (step.1 :: rest.1, rest.2)

/-- One call of `Reverb::process`: sample the block-rate parameters,
broadcast them to all combs, then process every stereo frame in place. -/
def Reverb.processBlock (r : Reverb) (roomSizeRaw dampingRaw : ℚ)
    (frames : List (ℚ × ℚ)) : List (ℚ × ℚ) × Reverb :=
  let rs := roomSizeRaw * (28/100) + 7/10
  let dp := dampingRaw * (4/10)
  (r.setParams rs dp).processFrames frames

/-! ## SysEx nibble codec and Write Request (src/control/midi.rs, lines 383-479)

Bytes are naturals below 256; the decode reproduces the u8 truncation of
`h << 4` exactly. -/

def STORAGE_MAGIC : Nat := 0x50445350

def STORAGE_VERSION : Nat := 7

/-- Dump-side encoding of the high nibble: `(byte >> 4) & 0x0F`. -/
def nibbleHi (b : Nat) : Nat := Nat.land (b / 16) 15

/-- Dump-side encoding of the low nibble: `byte & 0x0F`. -/
def nibbleLo (b : Nat) : Nat := Nat.land b 15

/-- Write-side decoding of a nibble pair: `(h << 4) | (l & 0x0F)` on u8. -/
def decodeByte (h l : Nat) : Nat := Nat.lor (h * 16 % 256) (Nat.land l 15)

/-- The Write Request decode loop: consecutive nibble pairs to bytes. -/
def decodePairs : List Nat → List Nat
  | h :: l :: rest => decodeByte h l :: decodePairs rest
  | _ => []

/-- `u32::from_le_bytes` over four bytes of a list at an offset. -/
def leU32 (bytes : List Nat) (off : Nat) : Nat :=
  bytes.getD off 0 + bytes.getD (off + 1) 0 * 256 +
    bytes.getD (off + 2) 0 * 65536 + bytes.getD (off + 3) 0 * 16777216

inductive WriteOutcome where
  | success
  | errBadLength
  | errBadMagic
deriving Repr, DecidableEq

structure WriteResult where
  packets : List (List Nat)
  storage : List Nat
  outcome : WriteOutcome
deriving Repr, DecidableEq

def sysexHeaderPacket : List Nat := [0x04, 0xF0, 0x7D, 0x01]

/-- The `CMD_WRITE_REQ` branch of `midi_task`: `msg` is the accumulated
SysEx message (starting 0xF0 and ending 0xF7), `storage` the 4096-byte
flash sector behind `Storage`.  `Storage::write_raw` erases the sector
and writes the block, i.e. replaces the sector content; it is invoked
only in the success branch. -/
def handleWriteReq (msg storage : List Nat) : WriteResult :=
  let enc := (msg.drop 4).dropLast
  if enc.length = 8192 then
    let dec := decodePairs enc
    if leU32 dec 0 = STORAGE_MAGIC ∧ leU32 dec 4 = STORAGE_VERSION then
      { packets := [sysexHeaderPacket, [0x06, 0x03, 0xF7, 0x00]],
        storage := dec,
        outcome := .success }
    else
      { packets := [sysexHeaderPacket, [0x07, 0x04, 0x02, 0xF7]],
        storage := storage,
        outcome := .errBadMagic }
  else
    { packets := [sysexHeaderPacket, [0x07, 0x04, 0x01, 0xF7]],
      storage := storage,
      outcome := .errBadLength }

/-! ## NoteStack invariants -/

/-- Structural invariant of the implementation NoteStack: both vectors
are duplicate-free, every pending-release note is also held, the held
vector respects its capacity, and the pending vector is empty whenever
sustain is inactive. -/
def NSInv (s : NoteStack) : Prop :=
  s.notes.Nodup ∧ s.pendingOff.Nodup ∧ s.pendingOff ⊆ s.notes ∧
    s.notes.length ≤ noteCapacity ∧ (s.sustainActive = false → s.pendingOff = [])

lemma foldlErase_sublist (ps ns : List Nat) :
    List.Sublist (ps.foldl (fun l p => l.erase p) ns) ns := by
  induction ps generalizing ns with
  | nil => simp
  | cons p ps ih =>
      simpa using (ih (ns.erase p)).trans (List.erase_sublist p ns)

lemma NSInv_new : NSInv NoteStack.new := by
  simp [NSInv, NoteStack.new, noteCapacity]

lemma NSInv_noteOn (s : NoteStack) (n : Nat) (h : NSInv s) : NSInv (s.noteOn n) := by
  obtain ⟨hn, hp, hsub, hlen, hsus⟩ := h
  simp only [NoteStack.noteOn]
  refine ⟨?_, hp.erase n, ?_, ?_, ?_⟩
  · split_ifs with h1 h2
    · exact hn
    · simp [List.nodup_append, hn, h1]
    · exact hn
  · intro x hx
    have hx2 : x ∈ s.notes := hsub ((List.erase_sublist n s.pendingOff).subset hx)
    split_ifs with h1 h2
    · exact hx2
    · simp [hx2]
    · exact hx2
  · split_ifs with h1 h2
    · exact hlen
    · simpa using h2
    · exact hlen
  · intro hfalse
    rw [hsus hfalse]
    rfl

lemma NSInv_noteOff (s : NoteStack) (n : Nat) (h : NSInv s) : NSInv (s.noteOff n) := by
  obtain ⟨hn, hp, hsub, hlen, hsus⟩ := h
  simp only [NoteStack.noteOff]
  split_ifs with h1 h2 h3
  · refine ⟨hn, ?_, ?_, hlen, ?_⟩
    · simp [List.nodup_append, hp, h2.2]
    · intro x hx
      rcases List.mem_append.mp hx with hx | hx
      · exact hsub hx
      · simpa using (List.mem_singleton.mp hx) ▸ h2.1
    · intro hfalse
      rw [hfalse] at h1
      exact absurd h1 (by simp)
  · exact ⟨hn, hp, hsub, hlen, hsus⟩
  · exact ⟨hn, hp, hsub, hlen, hsus⟩
  · have hpe : s.pendingOff = [] := by
      apply hsus
      simpa using h1
    refine ⟨hn.sublist (List.erase_sublist n s.notes), ?_, ?_, ?_, ?_⟩
    · rw [hpe]; exact List.nodup_nil
    · rw [hpe]; intro x hx; simp at hx
    · exact le_trans (List.erase_sublist n s.notes).length_le hlen
    · intro _; exact hpe

lemma NSInv_setSustain (s : NoteStack) (b : Bool) (h : NSInv s) : NSInv (s.setSustain b) := by
  obtain ⟨hn, hp, hsub, hlen, hsus⟩ := h
  simp only [NoteStack.setSustain]
  cases b with
  | true =>
      simp only [if_pos rfl]
      exact ⟨hn, hp, hsub, hlen, by intro hfalse; simp at hfalse⟩
  | false =>
      rw [if_neg Bool.false_ne_true]
      refine ⟨hn.sublist (foldlErase_sublist s.pendingOff s.notes), ?_, ?_, ?_, ?_⟩
      · exact List.nodup_nil
      · intro x hx; simp at hx
      · exact le_trans (foldlErase_sublist s.pendingOff s.notes).length_le hlen
      · intro _; rfl

lemma NSInv_clear (s : NoteStack) : NSInv s.clear := by
  simp [NoteStack.clear, NSInv]

lemma NSInv_step (s : NoteStack) (e : NoteEv) (h : NSInv s) : NSInv (s.step e) :=
  match e with
  | .on n => NSInv_noteOn s n h
  | .off n => NSInv_noteOff s n h
  | .sus b => NSInv_setSustain s b h
  | .clr => NSInv_clear s

lemma NSInv_runFrom (evs : List NoteEv) :
    ∀ s : NoteStack, NSInv s → NSInv (s.runFrom evs) := by
  induction evs with
  | nil => intro s h; exact h
  | cons e es ih =>
      intro s h
      exact ih (s.step e) (NSInv_step s e h)

/-! ## Refinement of the NoteStack by the specification tracker -/

lemma abs_noteOn (s : NoteStack) (n : Nat)
    (hcap : ((absNS s).step (NoteEv.on n)).active.length ≤ noteCapacity) :
    absNS (s.noteOn n) = (absNS s).step (NoteEv.on n) := by
  simp only [absNS, SpecStack.step] at hcap ⊢
  by_cases hm : n ∈ s.notes
  · simp [NoteStack.noteOn, hm]
  · simp only [hm, if_neg, ite_false] at hcap
    have hl : s.notes.length < noteCapacity := by
      simp at hcap
      omega
    simp [NoteStack.noteOn, hm, hl]

lemma abs_noteOff (s : NoteStack) (n : Nat) (hinv : NSInv s) :
    absNS (s.noteOff n) = (absNS s).step (NoteEv.off n) := by
  obtain ⟨hn, hp, hsub, hlen, _⟩ := hinv
  simp only [absNS, NoteStack.noteOff, SpecStack.step]
  cases hsact : s.sustainActive with
  | true =>
      simp only [if_pos rfl]
      by_cases hc : n ∈ s.notes ∧ n ∉ s.pendingOff
      · have hsp : (s.pendingOff ++ [n]).Nodup := by
          simp [List.nodup_append, hp, hc.2]
        have hss : s.pendingOff ++ [n] ⊆ s.notes := by
          intro x hx
          rcases List.mem_append.mp hx with hx | hx
          · exact hsub hx
          · simpa using (List.mem_singleton.mp hx) ▸ hc.1
        have hplen : s.pendingOff.length < noteCapacity := by
          have := (List.subperm_of_subset hsp hss).length_le
          simp at this
          omega
        simp [hc, hplen, hsact]
      · simp [hc, hsact]
  | false =>
      rw [if_neg Bool.false_ne_true, if_neg Bool.false_ne_true]

lemma abs_setSustain (s : NoteStack) (b : Bool) :
    absNS (s.setSustain b) = (absNS s).step (NoteEv.sus b) := by
  cases b <;> simp [absNS, NoteStack.setSustain, SpecStack.step]

lemma abs_step (s : NoteStack) (e : NoteEv) (hinv : NSInv s)
    (hcap : ((absNS s).step e).active.length ≤ noteCapacity) :
    absNS (s.step e) = (absNS s).step e :=
  match e with
  | .on n => abs_noteOn s n hcap
  | .off n => abs_noteOff s n hinv
  | .sus b => abs_setSustain s b
  | .clr => rfl

lemma abs_runFrom (evs : List NoteEv) :
    ∀ s : NoteStack, NSInv s → specCapOK (absNS s) evs = true →
      absNS (s.runFrom evs) = SpecStack.runFrom (absNS s) evs := by
  induction evs with
  | nil => intro s _ _; rfl
  | cons e es ih =>
      intro s hinv hcap
      simp only [specCapOK, Bool.and_eq_true, decide_eq_true_eq] at hcap
      obtain ⟨hcap1, hcap2⟩ := hcap
      have hstep := abs_step s e hinv hcap1
      show absNS ((s.step e).runFrom es) = SpecStack.runFrom ((absNS s).step e) es
      rw [← hstep]
      exact ih (s.step e) (NSInv_step s e hinv) (by rw [hstep]; exact hcap2)

lemma spec_step_active_mem (t : SpecStack) (e : NoteEv) (m : Nat)
    (h : m ∈ (t.step e).active) : m ∈ t.active ∨ e = NoteEv.on m :=
  match e with
  | .on n => by
      simp only [SpecStack.step] at h
      by_cases hm : n ∈ t.active
      · simp only [hm, ite_true] at h
        exact Or.inl h
      · simp only [hm, ite_false] at h
        rcases List.mem_append.mp h with h2 | h2
        · exact Or.inl h2
        · exact Or.inr (by rw [List.mem_singleton.mp h2])
  | .off n => by
      simp only [SpecStack.step] at h
      split_ifs at h
      · exact Or.inl h
      · exact Or.inl h
      · exact Or.inl (List.mem_of_mem_erase h)
  | .sus b => by
      simp only [SpecStack.step] at h
      cases b with
      | true => simp only [if_pos rfl] at h; exact Or.inl h
      | false =>
          rw [if_neg Bool.false_ne_true] at h
          exact Or.inl ((foldlErase_sublist t.pendingFlush t.active).subset h)
  | .clr => by simp [SpecStack.step] at h

lemma spec_runFrom_active_mem (evs : List NoteEv) :
    ∀ (t : SpecStack) (m : Nat), m ∈ (SpecStack.runFrom t evs).active →
      m ∈ t.active ∨ NoteEv.on m ∈ evs := by
  induction evs with
  | nil => intro t m h; exact Or.inl h
  | cons e es ih =>
      intro t m h
      rcases ih (t.step e) m h with h2 | h2
      · rcases spec_step_active_mem t e m h2 with h3 | h3
        · exact Or.inl h3
        · exact Or.inr (by rw [← h3]; exact List.mem_cons_self e es)
      · exact Or.inr (List.mem_cons_of_mem e h2)

/-- C3 counterexample: seventeen distinct presses overflow the 16-slot
held vector, the seventeenth is silently dropped, and active_note
returns note 15 even though note 16 is the most recently pressed note
that was never released nor flushed, as the unbounded specification
tracker records. -/
theorem noteStack_capacity_drop :
    (NoteStack.run ((List.range 17).map NoteEv.on)).activeNote = some 15 ∧
      (SpecStack.runFrom SpecStack.new ((List.range 17).map NoteEv.on)).active.getLast? =
        some 16 ∧
      (15 : Nat) ≠ 16 := by
  decide

/-- C3 (amended): for every sequence of NoteStack events along which the
set of sounding notes stays within the 16-note capacity, active_note
equals the most-recently-pressed note not directly released and not yet
sustain-flushed, as computed by the unbounded specification tracker
(re-pressing an already-held note does not renew its recency), and it
never returns a note that was never pressed. -/
theorem noteStack_active_note (evs : List NoteEv)
    (h : specCapOK SpecStack.new evs = true) :
    (NoteStack.run evs).activeNote = (SpecStack.runFrom SpecStack.new evs).active.getLast? ∧
      ∀ n, (NoteStack.run evs).activeNote = some n → NoteEv.on n ∈ evs := by
  have habs := abs_runFrom evs NoteStack.new NSInv_new h
  have hnotes : (NoteStack.run evs).notes = (SpecStack.runFrom SpecStack.new evs).active :=
    congrArg SpecStack.active habs
  constructor
  · show (NoteStack.run evs).notes.getLast? = _
    rw [hnotes]
  · intro n hn
    have hmem : n ∈ (NoteStack.run evs).notes := List.mem_of_mem_getLast? hn
    rw [hnotes] at hmem
    rcases spec_runFrom_active_mem evs SpecStack.new n hmem with h2 | h2
    · simp [SpecStack.new] at h2
    · exact h2

/-- Witness for C3 at the scenario of the spec: press 60, press 64,
release 60 with sustain off. -/
theorem noteStack_active_note_witness :
    (NoteStack.run [.on 60, .on 64, .off 60]).activeNote =
        (SpecStack.runFrom SpecStack.new [.on 60, .on 64, .off 60]).active.getLast? ∧
      ∀ n, (NoteStack.run [.on 60, .on 64, .off 60]).activeNote = some n →
        NoteEv.on n ∈ [NoteEv.on 60, NoteEv.on 64, NoteEv.off 60] :=
  noteStack_active_note [.on 60, .on 64, .off 60] (by decide)

/-- C4 counterexample: pressing note 60, engaging sustain and then
releasing 60 leaves 60 in the held vector and in the pending-release
vector at the same time, so the claimed mutual exclusion of the two sets
fails on the code. -/
theorem noteStack_held_and_pending_overlap :
    60 ∈ (NoteStack.run [.on 60, .sus true, .off 60]).notes ∧
      60 ∈ (NoteStack.run [.on 60, .sus true, .off 60]).pendingOff := by
  decide

/-- C4 (amended): starting from the empty NoteStack, every sequence of
operations preserves the invariant that each note number appears at most
once in the held vector, at most once in the pending-release vector, and
every pending-release note is also held (under sustain a released note
stays held, so it can be in both sets). -/
theorem noteStack_invariant (evs : List NoteEv) :
    (NoteStack.run evs).notes.Nodup ∧ (NoteStack.run evs).pendingOff.Nodup ∧
      (NoteStack.run evs).pendingOff ⊆ (NoteStack.run evs).notes := by
  have h := NSInv_runFrom evs NoteStack.new NSInv_new
  exact ⟨h.1, h.2.1, h.2.2.1⟩

/-- C10: a note_on for a note already held and not pending release
leaves the NoteStack unchanged, so active_note is unchanged as well. -/
theorem noteOn_idempotent_on_held (s : NoteStack) (n : Nat)
    (h1 : n ∈ s.notes) (h2 : n ∉ s.pendingOff) :
    s.noteOn n = s ∧ (s.noteOn n).activeNote = s.activeNote := by
  have heq : s.noteOn n = s := by
    simp [NoteStack.noteOn, h1, List.erase_of_not_mem h2]
  exact ⟨heq, by rw [heq]⟩

/-- Witness for C10 at the concrete state holding exactly note 60. -/
theorem noteOn_idempotent_on_held_witness :
    (NoteStack.mk [60] [] false).noteOn 60 = NoteStack.mk [60] [] false ∧
      ((NoteStack.mk [60] [] false).noteOn 60).activeNote =
        (NoteStack.mk [60] [] false).activeNote :=
  noteOn_idempotent_on_held (NoteStack.mk [60] [] false) 60 (by decide) (by decide)

/-! ## Nibble codec round trip -/

set_option maxRecDepth 8000 in
/-- C2: for every byte, decoding the two nibbles produced by the Dump
Request encoding returns the byte exactly, and both encoded values stay
below 0x80 (in fact below 0x10). -/
theorem nibble_roundtrip :
    ∀ b : Fin 256,
      decodeByte (nibbleHi b.val) (nibbleLo b.val) = b.val ∧
        nibbleHi b.val < 0x80 ∧ nibbleLo b.val < 0x80 := by
  decide

/-! ## Gate-reset one-shot protocol -/

lemma setGate_keeps_armed (c : MidiControl) (b : Bool) (h : c.gateReset = true) :
    (c.setGate b).gateReset = true := by
  cases b <;> simp [MidiControl.setGate, h]

lemma foldl_setGate_armed (gs : List Bool) :
    ∀ c : MidiControl, c.gateReset = true →
      (gs.foldl MidiControl.setGate c).gateReset = true := by
  induction gs with
  | nil => intro c h; exact h
  | cons b bs ih =>
      intro c h
      exact ih (c.setGate b) (setGate_keeps_armed c b h)

lemma gateStep_keeps_disarmed (c : MidiControl) (e : GateEv)
    (hne : e ≠ GateEv.set false) (h : c.gateReset = false) :
    (gateStep c e).gateReset = false :=
  match e with
  | .set true => by simp [gateStep, MidiControl.setGate, h]
  | .set false => absurd rfl hne
  | .take => by simp [gateStep, MidiControl.takeGateReset]

lemma foldl_gateStep_disarmed (evs : List GateEv) :
    ∀ c : MidiControl, GateEv.set false ∉ evs → c.gateReset = false →
      (evs.foldl gateStep c).gateReset = false := by
  induction evs with
  | nil => intro c _ h; exact h
  | cons e es ih =>
      intro c hne h
      exact ih (gateStep c e) (fun hm => hne (List.mem_cons_of_mem e hm))
        (gateStep_keeps_disarmed c e (fun he => hne (he ▸ List.mem_cons_self e es)) h)

/-- C9: set_gate(false) arms the one-shot gate_reset flag and
set_gate(true) never arms it; the flag survives any further set_gate
calls, so the first take_gate_reset after an arming returns true, and
once taken it stays false through any events other than set_gate(false),
so every further take returns false until the flag is armed again. -/
theorem gate_reset_one_shot :
    (∀ c : MidiControl, (c.setGate false).gateReset = true) ∧
      (∀ c : MidiControl, (c.setGate true).gateReset = c.gateReset) ∧
      (∀ (c : MidiControl) (gs : List Bool),
        ((gs.foldl MidiControl.setGate (c.setGate false)).takeGateReset).1 = true) ∧
      (∀ (c : MidiControl) (evs : List GateEv), GateEv.set false ∉ evs →
        ((evs.foldl gateStep (c.takeGateReset).2).takeGateReset).1 = false) := by
  refine ⟨?_, ?_, ?_, ?_⟩
  · intro c; simp [MidiControl.setGate]
  · intro c; simp [MidiControl.setGate]
  · intro c gs
    exact foldl_setGate_armed gs (c.setGate false) (by simp [MidiControl.setGate])
  · intro c evs hne
    exact foldl_gateStep_disarmed evs (c.takeGateReset).2 hne
      (by simp [MidiControl.takeGateReset])

/-- Witness for C9: arm, consume, then a set_gate(true) does not re-arm
and the next take returns false. -/
theorem gate_reset_one_shot_witness :
    (([GateEv.set true].foldl gateStep
        (((MidiControl.new.setGate false).takeGateReset).2)).takeGateReset).1 = false :=
  gate_reset_one_shot.2.2.2 (MidiControl.new.setGate false) [GateEv.set true] (by decide)

/-! ## All sound off / all notes off -/

/-- C6 counterexample: with the target frequency at 880 Hz, handling
Control Change 123 leaves the target frequency at 880, not at its
construction default of 440, refuting the claim that every ControlBridge
parameter is restored to its default. -/
theorem allNotesOff_keeps_target_freq :
    (allNotesOff NoteStack.new (MidiControl.new.setFreq 880)).2.targetFreq = 880 ∧
      (880 : ℚ) ≠ 440 := by
  constructor
  · norm_num [allNotesOff, MidiControl.new, MidiControl.setFreq, MidiControl.reset]
  · norm_num

/-- C6 (amended): Control Change 120 or 123 empties the NoteStack (held
set, pending-release set and sustain flag all cleared) and resets the
gate, gate_reset flag, pitch-bend factor and mod wheel of the
ControlBridge to their defaults (off, clear, 1.0, 0), while the target
frequency, portamento, parameter_1 and parameter_2 keep their current
values. -/
theorem allNotesOff_resets (ns : NoteStack) (c : MidiControl) :
    (allNotesOff ns c).1.notes = [] ∧
      (allNotesOff ns c).1.pendingOff = [] ∧
      (allNotesOff ns c).1.sustainActive = false ∧
      (allNotesOff ns c).2.gate = false ∧
      (allNotesOff ns c).2.gateReset = false ∧
      (allNotesOff ns c).2.pitchBend = 1 ∧
      (allNotesOff ns c).2.modWheel = 0 ∧
      (allNotesOff ns c).2.targetFreq = c.targetFreq ∧
      (allNotesOff ns c).2.portamentoAmount = c.portamentoAmount ∧
      (allNotesOff ns c).2.parameter1 = c.parameter1 ∧
      (allNotesOff ns c).2.parameter2 = c.parameter2 := by
  simp [allNotesOff, NoteStack.clear, MidiControl.reset]

/-! ## Oscillator phase bounds -/

lemma phaseStep_bounds (sr phase f : ℚ) (hsr : 0 < sr) (h0 : 0 ≤ phase)
    (h1 : phase < 1) (hf : |f| ≤ sr) :
    0 ≤ phaseStep sr phase f ∧ phaseStep sr phase f < 1 := by
  have hinc1 : f * (1 / sr) ≤ 1 := by
    rw [mul_one_div, div_le_one hsr]
    exact (abs_le.mp hf).2
  have hinc2 : -1 ≤ f * (1 / sr) := by
    rw [mul_one_div, le_div_iff₀ hsr]
    linarith [(abs_le.mp hf).1]
  unfold phaseStep
  dsimp only
  split_ifs with ha hb
  · constructor <;> linarith
  · constructor <;> linarith
  · constructor <;> linarith

/-- C5 counterexample: from phase 0, a single sample at frequency 96000
with sample rate 48000 (increment 2) leaves the accumulator at exactly
1, outside [0,1): the single conditional wrap cannot compensate an
increment of magnitude above 1, so the claim fails for unrestricted
per-sample frequency inputs. -/
theorem oscillator_phase_escape :
    (0 : ℚ) ≤ 0 ∧ (0 : ℚ) < 1 ∧ ¬ runPhase 48000 0 [96000] < 1 := by
  norm_num [runPhase, phaseStep]

/-- C5 (amended): starting from any phase in [0,1), the accumulator
stays in [0,1) after arbitrarily many per-sample advances, for every
per-sample frequency signal, including transiently negative values,
whose magnitude never exceeds the sample rate. -/
theorem oscillator_phase_bounds (sr phase : ℚ) (freqs : List ℚ) (hsr : 0 < sr)
    (h0 : 0 ≤ phase) (h1 : phase < 1) (hf : ∀ f ∈ freqs, |f| ≤ sr) :
    0 ≤ runPhase sr phase freqs ∧ runPhase sr phase freqs < 1 := by
  induction freqs generalizing phase with
  | nil => exact ⟨h0, h1⟩
  | cons f fs ih =>
      have hstep := phaseStep_bounds sr phase f hsr h0 h1 (hf f (List.mem_cons_self f fs))
      exact ih (phaseStep sr phase f) hstep.1 hstep.2
        (fun g hg => hf g (List.mem_cons_of_mem f hg))

/-- Witness for C5: a 440 Hz sample at a 48 kHz sample rate. -/
theorem oscillator_phase_bounds_witness :
    0 ≤ runPhase 48000 0 [440] ∧ runPhase 48000 0 [440] < 1 :=
  oscillator_phase_bounds 48000 0 [440] (by norm_num) (by norm_num) (by norm_num)
    (by
      intro f hfm
      rw [List.mem_singleton.mp hfm, abs_of_nonneg] <;> norm_num)

/-! ## Oscillator mixer gating -/

/-- C7 counterexample: with the primary level at 0 and oscillator 2 at
level 1 producing sample 1, the mixer output block is [1], not silence:
the code zero-fills the primary contribution but still accumulates the
other sources, so there is no short circuit to silence. -/
theorem mixer_no_short_circuit :
    mixerProcess 0 1 0 0 [0] [1] [0] [0] = [1] ∧
      mixerProcess 0 1 0 0 [0] [1] [0] [0] ≠ List.replicate 1 0 := by
  constructor
  · norm_num [mixerProcess, mixThreshold]
  · norm_num [mixerProcess, mixThreshold]

/-- C7 (amended): every source whose level is at or below the 0.0001
threshold contributes nothing to the mixer output (the output does not
depend on that source's samples), and when the primary level is at or
below the threshold its contribution is a zero base block, so the block
is all zeros exactly when every other source is also gated out; the
sources above threshold are still accumulated. -/
theorem mixer_level_gating (l1 l2 l3 ln : ℚ)
    (o1 o2 o3 onoise o1b o2b o3b onb : List ℚ) :
    (l1 ≤ mixThreshold → o1b.length = o1.length →
      mixerProcess l1 l2 l3 ln o1 o2 o3 onoise =
        mixerProcess l1 l2 l3 ln o1b o2 o3 onoise) ∧
    (l2 ≤ mixThreshold →
      mixerProcess l1 l2 l3 ln o1 o2 o3 onoise =
        mixerProcess l1 l2 l3 ln o1 o2b o3 onoise) ∧
    (l3 ≤ mixThreshold →
      mixerProcess l1 l2 l3 ln o1 o2 o3 onoise =
        mixerProcess l1 l2 l3 ln o1 o2 o3b onoise) ∧
    (ln ≤ mixThreshold →
      mixerProcess l1 l2 l3 ln o1 o2 o3 onoise =
        mixerProcess l1 l2 l3 ln o1 o2 o3 onb) ∧
    (l1 ≤ mixThreshold → l2 ≤ mixThreshold → l3 ≤ mixThreshold → ln ≤ mixThreshold →
      mixerProcess l1 l2 l3 ln o1 o2 o3 onoise = List.replicate o1.length 0) := by
  refine ⟨?_, ?_, ?_, ?_, ?_⟩
  · intro h hlen
    simp [mixerProcess, not_lt.mpr h, hlen]
  · intro h
    simp [mixerProcess, not_lt.mpr h]
  · intro h
    simp [mixerProcess, not_lt.mpr h]
  · intro h
    simp [mixerProcess, not_lt.mpr h]
  · intro h1 h2 h3 h4
    simp [mixerProcess, not_lt.mpr h1, not_lt.mpr h2, not_lt.mpr h3, not_lt.mpr h4]

/-- Witness for C7: oscillator 2 gated out at level 0, its samples do
not matter. -/
theorem mixer_level_gating_witness :
    mixerProcess 1 0 0 0 [5] [3] [2] [7] = mixerProcess 1 0 0 0 [5] [9] [2] [7] :=
  (mixer_level_gating 1 0 0 0 [5] [3] [2] [7] [0] [9] [0] [0]).2.1
    (by norm_num [mixThreshold])

/-! ## SysEx Write Request -/

lemma decodePairs_length : ∀ enc : List Nat, (decodePairs enc).length = enc.length / 2
  | [] => by simp [decodePairs]
  | [_] => by simp [decodePairs]
  | _ :: _ :: rest => by
      simp only [decodePairs, List.length_cons, decodePairs_length rest]
      omega

/-- C1: the Write Request handler commits to storage exactly when the
payload holds 8192 encoded nibble bytes (decoding to the 4096-byte raw
block) whose decoded little-endian magic and version match the expected
constants; a length mismatch answers Write-Error code 0x01, a
magic/version mismatch Write-Error code 0x02, and in both failure cases
the storage sector is left untouched. -/
theorem write_request_commits (msg storage : List Nat) :
    ((handleWriteReq msg storage).outcome = WriteOutcome.success ↔
      (msg.drop 4).dropLast.length = 8192 ∧
        leU32 (decodePairs ((msg.drop 4).dropLast)) 0 = STORAGE_MAGIC ∧
        leU32 (decodePairs ((msg.drop 4).dropLast)) 4 = STORAGE_VERSION) ∧
    ((handleWriteReq msg storage).outcome = WriteOutcome.success →
      (handleWriteReq msg storage).storage = decodePairs ((msg.drop 4).dropLast) ∧
        (handleWriteReq msg storage).storage.length = 4096) ∧
    ((msg.drop 4).dropLast.length ≠ 8192 →
      (handleWriteReq msg storage).outcome = WriteOutcome.errBadLength ∧
        (handleWriteReq msg storage).packets =
          [sysexHeaderPacket, [0x07, 0x04, 0x01, 0xF7]] ∧
        (handleWriteReq msg storage).storage = storage) ∧
    ((msg.drop 4).dropLast.length = 8192 →
      ¬(leU32 (decodePairs ((msg.drop 4).dropLast)) 0 = STORAGE_MAGIC ∧
          leU32 (decodePairs ((msg.drop 4).dropLast)) 4 = STORAGE_VERSION) →
      (handleWriteReq msg storage).outcome = WriteOutcome.errBadMagic ∧
        (handleWriteReq msg storage).packets =
          [sysexHeaderPacket, [0x07, 0x04, 0x02, 0xF7]] ∧
        (handleWriteReq msg storage).storage = storage) := by
  simp only [handleWriteReq]
  split_ifs with h1 h2
  · refine ⟨iff_of_true rfl ⟨h1, h2⟩, ?_, ?_, ?_⟩
    · intro _
      refine ⟨rfl, ?_⟩
      simp [decodePairs_length, h1]
    · intro hne
      exact absurd h1 hne
    · intro _ hmg
      exact absurd h2 hmg
  · refine ⟨iff_of_false (by simp) (fun hr => h2 hr.2), ?_, ?_, ?_⟩
    · intro hc
      simp at hc
    · intro hne
      exact absurd h1 hne
    · intro _ _
      exact ⟨rfl, rfl, rfl⟩
  · refine ⟨iff_of_false (by simp) (fun hr => h1 hr.1), ?_, ?_, ?_⟩
    · intro hc
      simp at hc
    · intro _
      exact ⟨rfl, rfl, rfl⟩
    · intro hl _
      exact absurd hl h1

/-- Witness for C1: a Write Request with an empty payload is rejected
as bad length and does not change the three-byte storage content. -/
theorem write_request_commits_witness :
    (handleWriteReq [0xF0, 0x7D, 0x01, 0x02, 0x00, 0xF7] [1, 2, 3]).outcome =
        WriteOutcome.errBadLength ∧
      (handleWriteReq [0xF0, 0x7D, 0x01, 0x02, 0x00, 0xF7] [1, 2, 3]).packets =
        [sysexHeaderPacket, [0x07, 0x04, 0x01, 0xF7]] ∧
      (handleWriteReq [0xF0, 0x7D, 0x01, 0x02, 0x00, 0xF7] [1, 2, 3]).storage = [1, 2, 3] :=
  (write_request_commits [0xF0, 0x7D, 0x01, 0x02, 0x00, 0xF7] [1, 2, 3]).2.2.1 (by decide)

/-! ## Reverb reset -/

lemma getD_zero (l : List ℚ) (h : ∀ x ∈ l, x = 0) (i : Nat) : l.getD i 0 = 0 := by
  induction l generalizing i with
  | nil => simp
  | cons a t ih =>
      cases i with
      | zero =>
          simp only [List.getD_cons_zero]
          exact h a (List.mem_cons_self a t)
      | succ j =>
          simp only [List.getD_cons_succ]
          exact ih (fun x hx => h x (List.mem_cons_of_mem a hx)) j

lemma set_zero (l : List ℚ) (h : ∀ x ∈ l, x = 0) (i : Nat) :
    ∀ x ∈ l.set i 0, x = 0 := by
  intro x hx
  rcases List.mem_or_eq_of_mem_set hx with hx2 | hx2
  · exact h x hx2
  · exact hx2

/-- A comb filter with silent state: all delay samples and the damping
filter state are zero. -/
def ZeroComb (c : Comb) : Prop := (∀ x ∈ c.delay.buffer, x = 0) ∧ c.filterState = 0

/-- An allpass filter with silent state. -/
def ZeroAllpass (a : Allpass) : Prop := ∀ x ∈ a.delay.buffer, x = 0

lemma comb_process_zero (c : Comb) (input : ℚ) (hi : input = 0) (h : ZeroComb c) :
    (c.process input).1 = 0 ∧ ZeroComb (c.process input).2 := by
  subst hi
  obtain ⟨hb, hf⟩ := h
  have hfst : (c.process 0).1 = c.delay.buffer.getD c.delay.pos 0 := rfl
  have hbuf : (c.process 0).2.delay.buffer =
      c.delay.buffer.set c.delay.pos (0 + c.filterState * c.feedback) := rfl
  have hfs : (c.process 0).2.filterState =
      c.delay.buffer.getD c.delay.pos 0 * (1 - c.damp) + c.filterState * c.damp := rfl
  have hz : (c.process 0).1 = 0 := by rw [hfst]; exact getD_zero _ hb _
  refine ⟨hz, ?_, ?_⟩
  · intro x hx
    rw [hbuf] at hx
    have harg : (0 : ℚ) + c.filterState * c.feedback = 0 := by rw [hf]; ring
    rw [harg] at hx
    exact set_zero _ hb _ x hx
  · rw [hfs, getD_zero _ hb, hf]
    ring

lemma allpass_process_zero (a : Allpass) (input : ℚ) (hi : input = 0)
    (h : ZeroAllpass a) :
    (a.process input).1 = 0 ∧ ZeroAllpass (a.process input).2 := by
  subst hi
  have hb1 : ∀ y ∈ a.delay.buffer.set a.delay.pos 0, y = 0 := set_zero a.delay.buffer h a.delay.pos
  have hfst : (a.process 0).1 = -0 + a.delay.buffer.getD a.delay.pos 0 := rfl
  have hz : (a.process 0).1 = 0 := by rw [hfst, getD_zero a.delay.buffer h]; ring
  refine ⟨hz, ?_⟩
  intro x hx
  have hbuf : (a.process 0).2.delay.buffer =
      (a.delay.buffer.set a.delay.pos 0).set
        (((a.delay.pos + 1) % a.delay.buffer.length +
            (a.delay.buffer.set a.delay.pos 0).length - 1) %
          (a.delay.buffer.set a.delay.pos 0).length)
        ((a.delay.buffer.set a.delay.pos 0).getD
            (((a.delay.pos + 1) % a.delay.buffer.length +
                (a.delay.buffer.set a.delay.pos 0).length - 1) %
              (a.delay.buffer.set a.delay.pos 0).length) 0 +
          (-0 + a.delay.buffer.getD a.delay.pos 0) * a.feedback) := rfl
  rw [hbuf] at hx
  rcases List.mem_or_eq_of_mem_set hx with hx2 | hx2
  · exact hb1 x hx2
  · rw [hx2, getD_zero _ hb1, getD_zero _ h]
    ring

lemma runCombs_zero (combs : List Comb) (input : ℚ) (hi : input = 0) :
    ∀ acc : ℚ, (∀ c ∈ combs, ZeroComb c) →
      (runCombs input acc combs).1 = acc ∧
        ∀ c ∈ (runCombs input acc combs).2, ZeroComb c := by
  subst hi
  induction combs with
  | nil =>
      intro acc _
      exact ⟨rfl, by intro c hc; simp [runCombs] at hc⟩
  | cons c cs ih =>
      intro acc h
      have hc := comb_process_zero c 0 rfl (h c (List.mem_cons_self c cs))
      have ht := ih (acc + (c.process 0).1) (fun d hd => h d (List.mem_cons_of_mem c hd))
      refine ⟨?_, ?_⟩
      · show (runCombs 0 (acc + (c.process 0).1) cs).1 = acc
        rw [hc.1, add_zero] at ht
        rw [hc.1, add_zero]
        exact ht.1
      · intro d hd
        have hd2 : d ∈ (c.process 0).2 :: (runCombs 0 (acc + (c.process 0).1) cs).2 := hd
        rcases List.mem_cons.mp hd2 with hd3 | hd3
        · rw [hd3]; exact hc.2
        · exact ht.2 d hd3

lemma runAllpasses_zero (aps : List Allpass) :
    ∀ x : ℚ, x = 0 → (∀ a ∈ aps, ZeroAllpass a) →
      (runAllpasses x aps).1 = 0 ∧ ∀ a ∈ (runAllpasses x aps).2, ZeroAllpass a := by
  induction aps with
  | nil =>
      intro x hx _
      exact ⟨hx, by intro a ha; simp [runAllpasses] at ha⟩
  | cons a rest ih =>
      intro x hx h
      have ha := allpass_process_zero a x hx (h a (List.mem_cons_self a rest))
      have ht := ih (a.process x).1 ha.1 (fun b hb => h b (List.mem_cons_of_mem a hb))
      refine ⟨ht.1, ?_⟩
      intro b hb
      have hb2 : b ∈ (a.process x).2 :: (runAllpasses (a.process x).1 rest).2 := hb
      rcases List.mem_cons.mp hb2 with hb3 | hb3
      · rw [hb3]; exact ha.2
      · exact ht.2 b hb3

/-- A reverb with fully silent internal state. -/
def ZeroReverb (r : Reverb) : Prop :=
  (∀ c ∈ r.combsL, ZeroComb c) ∧ (∀ c ∈ r.combsR, ZeroComb c) ∧
    (∀ a ∈ r.allpassesL, ZeroAllpass a) ∧ (∀ a ∈ r.allpassesR, ZeroAllpass a)

lemma processFrame_zero (r : Reverb) (h : ZeroReverb r) :
    (r.processFrame (0, 0)).1 = (0, 0) ∧ ZeroReverb (r.processFrame (0, 0)).2 := by
  obtain ⟨hl, hr, hal, har⟩ := h
  have hin : (((0, 0) : ℚ × ℚ).1 + ((0, 0) : ℚ × ℚ).2) * (1/2) * (15/1000) = 0 := by
    norm_num
  have hcl := runCombs_zero r.combsL _ hin 0 hl
  have hcr := runCombs_zero r.combsR _ hin 0 hr
  have hla := runAllpasses_zero r.allpassesL _ hcl.1 hal
  have hra := runAllpasses_zero r.allpassesR _ hcr.1 har
  constructor
  · show (_, _) = ((0 : ℚ), (0 : ℚ))
    rw [Prod.mk.injEq]
    exact ⟨hla.1, hra.1⟩
  · exact ⟨hcl.2, hcr.2, hla.2, hra.2⟩

lemma processFrames_zero (n : Nat) :
    ∀ r : Reverb, ZeroReverb r →
      (r.processFrames (List.replicate n (0, 0))).1 = List.replicate n (0, 0) := by
  induction n with
  | zero => intro r _; rfl
  | succ m ih =>
      intro r h
      have hf := processFrame_zero r h
      show (r.processFrame (0, 0)).1 ::
          ((r.processFrame (0, 0)).2.processFrames (List.replicate m (0, 0))).1 =
        List.replicate (m + 1) (0, 0)
      rw [hf.1, ih _ hf.2, List.replicate_succ]

lemma setParams_zero (r : Reverb) (rs dp : ℚ) (h : ZeroReverb r) :
    ZeroReverb (r.setParams rs dp) := by
  obtain ⟨hl, hr, hal, har⟩ := h
  refine ⟨?_, ?_, hal, har⟩
  · intro c hc
    obtain ⟨c0, hc0, hceq⟩ := List.mem_map.mp hc
    rw [← hceq]
    exact ⟨(hl c0 hc0).1, (hl c0 hc0).2⟩
  · intro c hc
    obtain ⟨c0, hc0, hceq⟩ := List.mem_map.mp hc
    rw [← hceq]
    exact ⟨(hr c0 hc0).1, (hr c0 hc0).2⟩

/-- C8: after Reverb::reset every comb and allpass delay buffer is all
zeros with write position 0 and every comb damping-filter state is zero,
and processing a block of all-zero stereo frames right after the reset
yields all-zero output frames for any block-rate room-size and damping
values: no residual tail survives a reset. -/
theorem reverb_reset_silent (r : Reverb) (roomSizeRaw dampingRaw : ℚ) (n : Nat) :
    (∀ c ∈ r.reset.combsL,
      (∀ x ∈ c.delay.buffer, x = 0) ∧ c.delay.pos = 0 ∧ c.filterState = 0) ∧
    (∀ c ∈ r.reset.combsR,
      (∀ x ∈ c.delay.buffer, x = 0) ∧ c.delay.pos = 0 ∧ c.filterState = 0) ∧
    (∀ a ∈ r.reset.allpassesL, (∀ x ∈ a.delay.buffer, x = 0) ∧ a.delay.pos = 0) ∧
    (∀ a ∈ r.reset.allpassesR, (∀ x ∈ a.delay.buffer, x = 0) ∧ a.delay.pos = 0) ∧
    (r.reset.processBlock roomSizeRaw dampingRaw (List.replicate n (0, 0))).1 =
      List.replicate n (0, 0) := by
  have hcomb : ∀ (l : List Comb) (c : Comb), c ∈ l.map Comb.reset →
      (∀ x ∈ c.delay.buffer, x = 0) ∧ c.delay.pos = 0 ∧ c.filterState = 0 := by
    intro l c hc
    obtain ⟨c0, _, hceq⟩ := List.mem_map.mp hc
    rw [← hceq]
    exact ⟨fun x hx => List.eq_of_mem_replicate hx, rfl, rfl⟩
  have hap : ∀ (l : List Allpass) (a : Allpass), a ∈ l.map Allpass.reset →
      (∀ x ∈ a.delay.buffer, x = 0) ∧ a.delay.pos = 0 := by
    intro l a ha
    obtain ⟨a0, _, haeq⟩ := List.mem_map.mp ha
    rw [← haeq]
    exact ⟨fun x hx => List.eq_of_mem_replicate hx, rfl⟩
  have hzero : ZeroReverb r.reset := by
    refine ⟨?_, ?_, ?_, ?_⟩
    · intro c hc; exact ⟨(hcomb r.combsL c hc).1, (hcomb r.combsL c hc).2.2⟩
    · intro c hc; exact ⟨(hcomb r.combsR c hc).1, (hcomb r.combsR c hc).2.2⟩
    · intro a ha; exact (hap r.allpassesL a ha).1
    · intro a ha; exact (hap r.allpassesR a ha).1
  refine ⟨fun c hc => hcomb r.combsL c hc, fun c hc => hcomb r.combsR c hc,
    fun a ha => hap r.allpassesL a ha, fun a ha => hap r.allpassesR a ha, ?_⟩
  exact processFrames_zero n _ (setParams_zero r.reset _ _ hzero)

/-- Witness for C8 at a concrete two-comb, one-allpass reverb with
dirty state, over a block of two silent frames. -/
theorem reverb_reset_silent_witness :
    ((Reverb.mk [Comb.mk (DelayLine.mk [5, 7] 1) (8/10) (2/10) 3] []
          [Allpass.mk (DelayLine.mk [2] 0) (1/2)] []).reset.processBlock 0 0
        (List.replicate 2 (0, 0))).1 = List.replicate 2 (0, 0) :=
  (reverb_reset_silent
    (Reverb.mk [Comb.mk (DelayLine.mk [5, 7] 1) (8/10) (2/10) 3] []
      [Allpass.mk (DelayLine.mk [2] 0) (1/2)] []) 0 0 2).2.2.2.2

end PicoDSP
